import Mathlib

/-!
Verification of the OWS single-header variant (src/variant.hpp) against its
natural-language specification.

The embedding models:

* the compile-time type-list metafunctions of namespace detail::vrnt
  (is_any, is_unique, IFromType), over an arbitrary type of type-codes
  with decidable equality;
* the runtime Variant container as an explicit state: the discriminant
  m_Idx (a Nat; the C++ member is `unsigned`, whose max value is the
  valueless sentinel), and the byte buffer m_Raw, modelled as the history
  of objects placement-constructed in the buffer, newest first, each with
  a liveness flag.  An object's lifetime ends (its flag drops to false)
  exactly when its destructor is invoked through the dispatch table or
  when the storage is reused by a later placement-new; this is the C++
  object-lifetime discipline for alternatives with non-trivial
  destructors.  Reads of the buffer return the bytes of the newest object
  with the requested tag regardless of liveness (the bytes persist after
  a destructor call until the storage is reused), which is what the code
  relies on in its aliased self-assignment paths.
* a ghost counter dtorCalls counting invocations of the per-alternative
  destructor table, the "destruction counter on a test alternative type"
  used by the specification's testable properties.

Exceptional control flow is explicit: an `Outcome` distinguishes normal
completion, an alternative-constructor exception propagating to the
caller, the throwing branch of the internal get inside the (noexcept)
destroy table entry, an out-of-range dispatch-table index, and an
undefined read of the buffer at a tag it does not hold.
-/

namespace OWS

-- ***************************************************************************
-- Type-list metafunctions (detail::vrnt), over decidable type codes.
-- A C++ parameter pack <T, Ts...> is at least one type; it is modelled as a
-- head element plus a list.

variable {α : Type} [DecidableEq α]

/-- detail::vrnt::is_any<R, T, Ts...>: membership of R in the pack.
Floor specialization is_any<R, T> = is_same<R, T>; otherwise
is_same<R, T> || is_any<R, Ts...>. -/
def is_any (R T : α) (Ts : List α) : Bool :=
  match Ts with
  | [] => R = T
  | T2 :: Ts2 => (R = T : Bool) || is_any R T2 Ts2

/-- detail::vrnt::is_unique<T, Ts...>: no duplicate types in the pack.
Floor specialization is_unique<T> = true; otherwise
!is_any<T, Ts...> && is_unique<Ts...>. -/
def is_unique (T : α) (Ts : List α) : Bool :=
  match Ts with
  | [] => true
  | T2 :: Ts2 => !(is_any T T2 Ts2) && is_unique T2 Ts2

/-- detail::vrnt::IFromType<I, R, T, Ts...>: the accumulator-style index of
the first occurrence of R in the pack <T, Ts...>.  The specialization
IFromType<I, R, R, Ts...> yields I; the primary template recurses to
IFromType<I+1, R, Ts...> and its enable_if rejects a pack not containing
R, modelled as `none` (a compile error). -/
def IFromType (I : Nat) (R T : α) (Ts : List α) : Option Nat :=
  if R = T then some I
  else
    match Ts with
    | [] => none
    | T2 :: Ts2 => IFromType (I + 1) R T2 Ts2

/-- index_of(T, list): the position of the first occurrence of T, i.e.
IFromType<0, T, list...>::value. -/
def index_of (R T : α) (Ts : List α) : Option Nat :=
  IFromType 0 R T Ts

/-- A well-formed Variant class instantiation: an ordered nonempty list of
alternative type codes together with the static_assert at variant.hpp:169,
`is_unique<Ts...>::value`, which must hold for the class to instantiate. -/
structure VariantDecl (α : Type) [DecidableEq α] where
  head : α
  rest : List α
  assert_unique : is_unique head rest = true

-- ***************************************************************************
-- The runtime Variant container.

/-- s_Valueless = std::numeric_limits<unsigned>::max() on the usual model
where unsigned is 32 bits. -/
def s_Valueless : Nat := 4294967295

/-- The state of a Variant<Ts...> instance.  `n` is sizeof...(Ts) and
`A i` is the value space of the i-th alternative type.

`m_Raw` models the byte buffer as the history of objects constructed in
place there, newest first; the Bool flag is true while the object's
lifetime has not been ended (by a destructor-table call or by storage
reuse).  `dtorCalls` is a ghost counter of destructor-table invocations
performed on this instance (it occupies no C++ storage). -/
structure Variant (n : Nat) (A : Fin n → Type) where
  m_Idx : Nat
  m_Raw : List (Sigma A × Bool)
  dtorCalls : Nat

/-- Outcome of running one member-function body.

`ok s ret`: normal completion in state `s` returning `ret`.
`ctorThrown s`: the alternative type's constructor threw inside the
  placement-new of emplace; the exception propagates to the caller
  uncaught, leaving the instance in state `s`.
`destroyGetThrew req act`: the get<T>() call inside the noexcept
  destructor-table entry took its throwing branch (req = requested index,
  act = discriminant); being noexcept this is std::terminate.
`oob idx`: a dispatch table was indexed with the out-of-range value idx.
`ubRead`: the buffer was read at an alternative tag whose object is not
  the buffer's current object (undefined behavior). -/
inductive Outcome (σ ρ : Type) where
  | ok (s : σ) (ret : ρ)
  | ctorThrown (s : σ)
  | destroyGetThrew (req act : Nat)
  | oob (idx : Nat)
  | ubRead
  deriving DecidableEq

/-- Whether an outcome is normal completion. -/
def Outcome.isOk {σ ρ : Type} : Outcome σ ρ → Bool
  | .ok _ _ => true
  | _ => false

/-- Whether an outcome is the throwing branch of the destroy table's
internal get (which, being inside a noexcept function, terminates). -/
def Outcome.destroyThrew {σ ρ : Type} : Outcome σ ρ → Bool
  | .destroyGetThrew _ _ => true
  | _ => false

/-- Whether an outcome is an alternative-constructor exception propagating
to the caller. -/
def Outcome.isCtorThrown {σ ρ : Type} : Outcome σ ρ → Bool
  | .ctorThrown _ => true
  | _ => false

variable {n : Nat} {A : Fin n → Type}

instance [DecidableEq (Sigma A)] : DecidableEq (Variant n A) := fun a b =>
  decidable_of_iff
    (a.m_Idx = b.m_Idx ∧ a.m_Raw = b.m_Raw ∧ a.dtorCalls = b.dtorCalls)
    (by cases a; cases b; simp [Variant.mk.injEq])

/-- Mark the buffer's current (newest) object as no longer alive: the
effect of running its destructor. -/
def deadTop {γ : Type} : List (γ × Bool) → List (γ × Bool)
  | [] => []
  | (o, _) :: t => (o, false) :: t

/-- Mark every object in the buffer as no longer alive: the effect of
reusing the storage with a new placement-construction. -/
def deadAll {γ : Type} (l : List (γ × Bool)) : List (γ × Bool) :=
  l.map (fun p => (p.1, false))

/-- Read the buffer reinterpreted as alternative `i`
(reinterpret_cast<T&>(m_Raw)): the bytes of the newest object if its tag
is `i`, regardless of liveness (bytes persist after a destructor call
until the storage is reused); `none` when the newest object has a
different tag or the buffer was never written (an undefined read). -/
def Variant.readRaw (v : Variant n A) (i : Fin n) : Option (A i) :=
  match v.m_Raw with
  | [] => none
  | (⟨j, x⟩, _) :: _ => if h : j = i then some (h ▸ x) else none

/-- index(): returns the discriminant m_Idx. -/
def Variant.index (v : Variant n A) : Nat := v.m_Idx

/-- valueless(): m_Idx == s_Valueless. -/
def Variant.valueless (v : Variant n A) : Bool := v.m_Idx = s_Valueless

/-- holds_alternative<T>() for T at index i: typeIdx == m_Idx, noexcept. -/
def Variant.holds_alternative (v : Variant n A) (i : Fin n) : Bool :=
  i.val = v.m_Idx

/-- get_if<T>() / get_if<I>() for the alternative at index i, noexcept:
returns the buffer pointer when the index matches the discriminant, else
nullptr.  `none` is nullptr; `some c` is a non-null pointer whose pointee
bytes read as `c`. -/
def Variant.get_if (v : Variant n A) (i : Fin n) : Option (Option (A i)) :=
  if i.val = v.m_Idx then some (v.readRaw i) else none

/-- get<T>() / get<I>() for the alternative at index i: throws
bad_variant_access{"get<", typeIdx, "> on variant ", m_Idx} when the
index does not match the discriminant, else returns the buffer reference;
the error carries (requested, actual). -/
def Variant.get (v : Variant n A) (i : Fin n) :
    Except (Nat × Nat) (Option (A i)) :=
  if i.val ≠ v.m_Idx then .error (i.val, v.m_Idx)
  else .ok (v.readRaw i)

/-- TDestructor<T> for T at index i (an entry of s_Destructors), noexcept:
thisPtr->get<T>().~T().  If the internal get throws, the noexcept
specification terminates the program; otherwise the destructor ends the
lifetime of the buffer's current object. -/
def Variant.TDestructor (i : Fin n) (thisPtr : Variant n A) :
    Except (Nat × Nat) (Variant n A) :=
  match thisPtr.get i with
  | .error e => .error e
  | .ok _ =>
      .ok { thisPtr with
              m_Raw := deadTop thisPtr.m_Raw
              dtorCalls := thisPtr.dtorCalls + 1 }

/-- The call s_Destructors[m_Idx](this): index the destructor table with
the current discriminant and run the entry. -/
def Variant.dispatchDestroy (v : Variant n A) : Outcome (Variant n A) Unit :=
  if h : v.m_Idx < n then
    match Variant.TDestructor ⟨v.m_Idx, h⟩ v with
    | .error e => .destroyGetThrew e.1 e.2
    | .ok v2 => .ok v2 ()
  else .oob v.m_Idx

/-- emplace<T, Args...>(args...) for T at index i.  `ctorRes` is the
outcome of the expression T{std::forward<Args>(args)...}: `ok x`
constructs the value x, `error ()` is the alternative constructor
throwing.  Body:
  if (s_Valueless != m_Idx) s_Destructors[m_Idx](this);
  m_Idx = detail::vrnt::IFromType<0, T, Ts...>::value;   (narrowed to unsigned)
  return *::new (reinterpret_cast<T*>(m_Raw)) T{ ... };  -/
def Variant.emplace (v : Variant n A) (i : Fin n)
    (ctorRes : Except Unit (A i)) : Outcome (Variant n A) (A i) :=
  match (if s_Valueless ≠ v.m_Idx then v.dispatchDestroy else .ok v ()) with
  | .ok v1 _ =>
      let v2 : Variant n A := { v1 with m_Idx := i.val % 4294967296 }
      match ctorRes with
      | .error _ => .ctorThrown v2
      | .ok x => .ok { v2 with m_Raw := (⟨i, x⟩, true) :: deadAll v2.m_Raw } x
  | .ctorThrown s => .ctorThrown s
  | .destroyGetThrew a b => .destroyGetThrew a b
  | .oob j => .oob j
  | .ubRead => .ubRead

/-- The valueless default constructor Variant(): m_Raw zeroed with no
object constructed in it, m_Idx = s_Valueless. -/
def Variant.mkDefault : Variant n A :=
  { m_Idx := s_Valueless, m_Raw := [], dtorCalls := 0 }

/-- The value initializer Variant(T&&) for T at index i: delegates to the
default constructor and then emplace<T>(std::forward<U>(variant)).
`ctorRes` is the outcome of constructing T from the forwarded argument. -/
def Variant.valueCtor (i : Fin n) (ctorRes : Except Unit (A i)) :
    Outcome (Variant n A) (A i) :=
  (Variant.mkDefault).emplace i ctorRes

/-- TAssign<T> for the alternative at index i (an entry of s_CopyAssigns
when T = Ti const&, of s_MoveAssigns when T = Ti&&):
  lhsPtr->emplace<remove_cvref<T>>(reinterpret_cast<T>(rhsPtr->m_Raw));
The rhs buffer bytes are read as the alternative (the same bytes whether
read before or after any destroy emplace performs, since a destructor
call does not change them), and the alternative's copy/move constructor
produces that value; it does not modify the rhs discriminant. -/
def Variant.TAssign (i : Fin n) (lhsPtr rhsPtr : Variant n A) :
    Outcome (Variant n A) (A i) :=
  match rhsPtr.readRaw i with
  | none => .ubRead
  | some x => lhsPtr.emplace i (.ok x)

/-- The copy constructor Variant(Variant const&): delegates to the default
constructor; a valueless source leaves the result valueless, otherwise
s_CopyAssigns[other.m_Idx](this, &other), which does not modify other. -/
def Variant.copyCtor (other : Variant n A) : Outcome (Variant n A) Unit :=
  if s_Valueless = other.m_Idx then .ok Variant.mkDefault ()
  else if h : other.m_Idx < n then
    match Variant.TAssign ⟨other.m_Idx, h⟩ Variant.mkDefault other with
    | .ok s _ => .ok s ()
    | .ctorThrown s => .ctorThrown s
    | .destroyGetThrew a b => .destroyGetThrew a b
    | .oob j => .oob j
    | .ubRead => .ubRead
  else .oob other.m_Idx

/-- The move constructor Variant(Variant&&) noexcept: delegates to the
default constructor; a valueless source leaves the result valueless,
otherwise s_MoveAssigns[other.m_Idx](this, &other) and then
other.m_Idx = s_Valueless.  Returns (the new object, other after). -/
def Variant.moveCtor (other : Variant n A) :
    Outcome (Variant n A × Variant n A) Unit :=
  if s_Valueless = other.m_Idx then .ok (Variant.mkDefault, other) ()
  else if h : other.m_Idx < n then
    match Variant.TAssign ⟨other.m_Idx, h⟩ Variant.mkDefault other with
    | .ok s _ => .ok (s, { other with m_Idx := s_Valueless }) ()
    | .ctorThrown s => .ctorThrown (s, other)
    | .destroyGetThrew a b => .destroyGetThrew a b
    | .oob j => .oob j
    | .ubRead => .ubRead
  else .oob other.m_Idx

/-- operator=(Variant const&) with this and other distinct objects: a
valueless source destroys any current value and leaves this valueless,
otherwise s_CopyAssigns[other.m_Idx](this, &other) (other unmodified). -/
def Variant.copyAssign (a other : Variant n A) : Outcome (Variant n A) Unit :=
  if s_Valueless = other.m_Idx then
    match (if s_Valueless ≠ a.m_Idx then a.dispatchDestroy else .ok a ()) with
    | .ok a1 _ => .ok { a1 with m_Idx := s_Valueless } ()
    | .ctorThrown s => .ctorThrown s
    | .destroyGetThrew x y => .destroyGetThrew x y
    | .oob j => .oob j
    | .ubRead => .ubRead
  else if h : other.m_Idx < n then
    match Variant.TAssign ⟨other.m_Idx, h⟩ a other with
    | .ok a1 _ => .ok a1 ()
    | .ctorThrown s => .ctorThrown s
    | .destroyGetThrew x y => .destroyGetThrew x y
    | .oob j => .oob j
    | .ubRead => .ubRead
  else .oob other.m_Idx

/-- operator=(Variant const&) invoked with this == &other (self
copy-assignment), traced with the aliasing explicit: the rhs buffer read
inside TAssign happens after emplace destroyed the current value, but the
destructor call leaves the bytes in place, so the value read is the
instance's own stored value. -/
def Variant.copyAssignSelf (a : Variant n A) : Outcome (Variant n A) Unit :=
  if s_Valueless = a.m_Idx then .ok { a with m_Idx := s_Valueless } ()
  else if h : a.m_Idx < n then
    match Variant.TAssign ⟨a.m_Idx, h⟩ a a with
    | .ok s _ => .ok s ()
    | .ctorThrown s => .ctorThrown s
    | .destroyGetThrew x y => .destroyGetThrew x y
    | .oob j => .oob j
    | .ubRead => .ubRead
  else .oob a.m_Idx

/-- operator=(Variant&&) noexcept with this and other distinct objects: a
valueless source destroys any current value and leaves this valueless;
otherwise s_MoveAssigns[other.m_Idx](this, &other) and then
other.m_Idx = s_Valueless.  Returns (this after, other after). -/
def Variant.moveAssign (a other : Variant n A) :
    Outcome (Variant n A × Variant n A) Unit :=
  if s_Valueless = other.m_Idx then
    match (if s_Valueless ≠ a.m_Idx then a.dispatchDestroy else .ok a ()) with
    | .ok a1 _ => .ok ({ a1 with m_Idx := s_Valueless }, other) ()
    | .ctorThrown s => .ctorThrown (s, other)
    | .destroyGetThrew x y => .destroyGetThrew x y
    | .oob j => .oob j
    | .ubRead => .ubRead
  else if h : other.m_Idx < n then
    match Variant.TAssign ⟨other.m_Idx, h⟩ a other with
    | .ok a1 _ => .ok (a1, { other with m_Idx := s_Valueless }) ()
    | .ctorThrown s => .ctorThrown (s, other)
    | .destroyGetThrew x y => .destroyGetThrew x y
    | .oob j => .oob j
    | .ubRead => .ubRead
  else .oob other.m_Idx

/-- operator=(Variant&&) invoked with this == &other (self
move-assignment), traced with the aliasing explicit: when active,
TAssign re-emplaces the instance's own value (read from the bytes its
destructor call left behind), and the trailing other.m_Idx = s_Valueless
then writes the sentinel into this instance's own discriminant. -/
def Variant.moveAssignSelf (a : Variant n A) : Outcome (Variant n A) Unit :=
  if s_Valueless = a.m_Idx then .ok { a with m_Idx := s_Valueless } ()
  else if h : a.m_Idx < n then
    match Variant.TAssign ⟨a.m_Idx, h⟩ a a with
    | .ok s _ => .ok { s with m_Idx := s_Valueless } ()
    | .ctorThrown s => .ctorThrown s
    | .destroyGetThrew x y => .destroyGetThrew x y
    | .oob j => .oob j
    | .ubRead => .ubRead
  else .oob a.m_Idx

/-- operator=(T&&) from a bare value of the alternative at index i:
emplace<remove_cvref<T>>(std::forward<T>(rhs)); return *this. -/
def Variant.valueAssign (a : Variant n A) (i : Fin n)
    (ctorRes : Except Unit (A i)) : Outcome (Variant n A) Unit :=
  match a.emplace i ctorRes with
  | .ok s _ => .ok s ()
  | .ctorThrown s => .ctorThrown s
  | .destroyGetThrew x y => .destroyGetThrew x y
  | .oob j => .oob j
  | .ubRead => .ubRead

/-- The destructor ~Variant() noexcept: if valueless, nothing; else
s_Destructors[m_Idx](this) (the index is deliberately not cleared). -/
def Variant.destructor (v : Variant n A) : Outcome (Variant n A) Unit :=
  if s_Valueless = v.m_Idx then .ok v ()
  else v.dispatchDestroy

-- ***************************************************************************
-- Derived observations used by the statements.

/-- The objects in the buffer whose lifetime has not ended. -/
def liveEntries (v : Variant n A) : List (Sigma A) :=
  (v.m_Raw.filter (fun p => p.2)).map (fun p => p.1)

/-- The state invariant actually maintained by the implementation: the
objects below the buffer's current one are all dead, and an active
discriminant is in range with the buffer's current object a live value of
that alternative.  (A valueless discriminant does not preclude a live
moved-from object remaining as the buffer's current object.) -/
def Inv (v : Variant n A) : Prop :=
  (∀ p ∈ v.m_Raw.tail, p.2 = false) ∧
  (v.m_Idx ≠ s_Valueless →
    ∃ (h : v.m_Idx < n) (x : A ⟨v.m_Idx, h⟩),
      v.m_Raw.head? = some (⟨⟨v.m_Idx, h⟩, x⟩, true))

/-- States reachable from the public API by sequences of successfully
completed object-producing operations. -/
inductive Reachable {n : Nat} {A : Fin n → Type} : Variant n A → Prop where
  | default_ctor : Reachable (Variant.mkDefault (n := n) (A := A))
  | value_ctor (i : Fin n) (x : A i) (s : Variant n A) (r : A i) :
      Variant.valueCtor i (.ok x) = .ok s r → Reachable s
  | emplace_op (v : Variant n A) (i : Fin n) (x : A i) (s : Variant n A)
      (r : A i) : Reachable v → v.emplace i (.ok x) = .ok s r → Reachable s
  | copy_ctor (v s : Variant n A) :
      Reachable v → Variant.copyCtor v = .ok s () → Reachable s
  | move_ctor_dst (v s s2 : Variant n A) :
      Reachable v → Variant.moveCtor v = .ok (s, s2) () → Reachable s
  | move_ctor_src (v s s2 : Variant n A) :
      Reachable v → Variant.moveCtor v = .ok (s, s2) () → Reachable s2
  | copy_assign (a b s : Variant n A) :
      Reachable a → Reachable b → Variant.copyAssign a b = .ok s () → Reachable s
  | copy_assign_self (a s : Variant n A) :
      Reachable a → Variant.copyAssignSelf a = .ok s () → Reachable s
  | move_assign_dst (a b s s2 : Variant n A) :
      Reachable a → Reachable b → Variant.moveAssign a b = .ok (s, s2) () →
      Reachable s
  | move_assign_src (a b s s2 : Variant n A) :
      Reachable a → Reachable b → Variant.moveAssign a b = .ok (s, s2) () →
      Reachable s2
  | move_assign_self (a s : Variant n A) :
      Reachable a → Variant.moveAssignSelf a = .ok s () → Reachable s
  | value_assign (a : Variant n A) (i : Fin n) (x : A i) (s : Variant n A) :
      Reachable a → a.valueAssign i (.ok x) = .ok s () → Reachable s

-- ***************************************************************************
-- Lemmas about the type-list metafunctions.

theorem is_any_true_iff {α : Type} [DecidableEq α] (R T : α) (Ts : List α) :
    is_any R T Ts = true ↔ R = T ∨ R ∈ Ts := by
  induction Ts generalizing T with
  | nil => simp [is_any]
  | cons T2 Ts2 ih => simp [is_any, ih, List.mem_cons, or_assoc]

theorem is_unique_true_iff {α : Type} [DecidableEq α] (T : α) (Ts : List α) :
    is_unique T Ts = true ↔ (T :: Ts).Nodup := by
  induction Ts generalizing T with
  | nil => simp [is_unique]
  | cons T2 Ts2 ih =>
      rw [List.nodup_cons]
      simp only [is_unique, Bool.and_eq_true, Bool.not_eq_true']
      constructor
      · rintro ⟨h1, h2⟩
        refine ⟨?_, (ih T2).mp h2⟩
        intro hmem
        have := (is_any_true_iff T T2 Ts2).mpr (by simpa [List.mem_cons] using hmem)
        simp [this] at h1
      · rintro ⟨h1, h2⟩
        refine ⟨?_, (ih T2).mpr h2⟩
        cases hany : is_any T T2 Ts2 with
        | false => rfl
        | true =>
            exact absurd (by simpa [List.mem_cons] using
              (is_any_true_iff T T2 Ts2).mp hany) h1

theorem IFromType_cons_ne {α : Type} [DecidableEq α] (I : Nat) (R T T2 : α)
    (Ts2 : List α) (h : R ≠ T) :
    IFromType I R T (T2 :: Ts2) = IFromType (I + 1) R T2 Ts2 := by
  simp [IFromType, h]

theorem IFromType_get {α : Type} [DecidableEq α] (I : Nat) (T : α) (Ts : List α)
    (hnd : (T :: Ts).Nodup) (j : Fin (T :: Ts).length) :
    IFromType I ((T :: Ts).get j) T Ts = some (I + j.val) := by
  induction Ts generalizing T I with
  | nil =>
      rcases j with ⟨jv, hj⟩
      have h0 : jv = 0 := by
        simp only [List.length_cons, List.length_nil] at hj
        omega
      subst h0
      simp [IFromType]
  | cons T2 Ts2 ih =>
      rcases List.nodup_cons.mp hnd with ⟨hT, hnd2⟩
      induction j using Fin.cases with
      | zero => simp [IFromType]
      | succ k =>
          have hmem : (T2 :: Ts2).get k ∈ T2 :: Ts2 :=
            List.get_mem (T2 :: Ts2) k.val k.isLt
          have hne : (T2 :: Ts2).get k ≠ T := fun h => hT (h ▸ hmem)
          have hget : (T :: T2 :: Ts2).get k.succ = (T2 :: Ts2).get k := rfl
          rw [hget, IFromType_cons_ne _ _ _ _ _ hne, ih (I + 1) T2 hnd2 k]
          congr 1
          simp [Fin.val_succ]
          omega

/-- C8: is_unique(T0..Tn) is true exactly when no two types in the list
are identical (List.Nodup), and a false result prevents the Variant type
from being instantiated: no VariantDecl (which carries the static_assert
of variant.hpp:169 as a field) exists over a list that is not unique. -/
theorem is_unique_nodup_and_gates_decl {α : Type} [DecidableEq α]
    (T : α) (Ts : List α) :
    (is_unique T Ts = true ↔ (T :: Ts).Nodup) ∧
    (is_unique T Ts = false →
      ¬ ∃ d : VariantDecl α, d.head = T ∧ d.rest = Ts) := by
  refine ⟨is_unique_true_iff T Ts, ?_⟩
  rintro hfalse ⟨d, h1, h2⟩
  have := d.assert_unique
  rw [h1, h2] at this
  rw [this] at hfalse
  cases hfalse

/-- Witness for C8 at the concrete duplicate list bool,bool modelled as
type codes 0,0 and the unique list 0,1. -/
theorem is_unique_nodup_and_gates_decl_witness :
    (is_unique (0 : Nat) [0] = false ∧
      ¬ ∃ d : VariantDecl Nat, d.head = 0 ∧ d.rest = [0]) ∧
    (is_unique (0 : Nat) [1] = true ↔ ([0, 1] : List Nat).Nodup) :=
  ⟨⟨by decide, (is_unique_nodup_and_gates_decl 0 [0]).2 (by decide)⟩,
    (is_unique_nodup_and_gates_decl 0 [1]).1⟩

-- ***************************************************************************
-- Characterizations of the runtime operations.

theorem deadAll_deadTop {γ : Type} (l : List (γ × Bool)) :
    deadAll (deadTop l) = deadAll l := by
  cases l with
  | nil => rfl
  | cons p t => cases p; rfl

theorem readRaw_head (v : Variant n A) (i : Fin n) (x : A i) (b : Bool)
    (h : v.m_Raw.head? = some (⟨i, x⟩, b)) : v.readRaw i = some x := by
  unfold Variant.readRaw
  cases hr : v.m_Raw with
  | nil => rw [hr] at h; cases h
  | cons p t =>
      rw [hr] at h
      cases h' : p with
      | mk o bb =>
          cases o with
          | mk j y =>
              subst h'
              simp only [List.head?] at h
              injection h with h
              cases h
              simp

theorem dispatchDestroy_of_lt (v : Variant n A) (h : v.m_Idx < n) :
    v.dispatchDestroy =
      .ok { v with m_Raw := deadTop v.m_Raw, dtorCalls := v.dtorCalls + 1 } () := by
  unfold Variant.dispatchDestroy
  rw [dif_pos h]
  unfold Variant.TDestructor Variant.get
  simp

theorem dispatchDestroy_not_destroyThrew (v : Variant n A) :
    (v.dispatchDestroy).destroyThrew = false := by
  by_cases h : v.m_Idx < n
  · rw [dispatchDestroy_of_lt v h]; rfl
  · unfold Variant.dispatchDestroy
    rw [dif_neg h]
    rfl

theorem valueless_ne_of_lt (m : Nat) (hm : m < n) (hn : n ≤ s_Valueless) :
    m ≠ s_Valueless := by
  omega

theorem emplace_ok_spec (v : Variant n A) (i : Fin n) (x : A i)
    (hv : v.m_Idx = s_Valueless ∨ v.m_Idx < n) (hn : n ≤ s_Valueless) :
    v.emplace i (.ok x) =
      .ok { m_Idx := i.val,
            m_Raw := (⟨i, x⟩, true) :: deadAll v.m_Raw,
            dtorCalls := v.dtorCalls + (if v.m_Idx = s_Valueless then 0 else 1) } x := by
  have hmod : i.val % 4294967296 = i.val := by
    have := i.isLt
    have : i.val < 4294967296 := by
      unfold s_Valueless at hn
      omega
    exact Nat.mod_eq_of_lt this
  unfold Variant.emplace
  rcases hv with hv | hv
  · rw [if_neg (by rw [hv]; exact fun h => h rfl)]
    simp [hmod, if_pos hv]
  · have hne : v.m_Idx ≠ s_Valueless := valueless_ne_of_lt v.m_Idx hv hn
    rw [if_pos (fun h => hne h.symm), dispatchDestroy_of_lt v hv]
    simp [hmod, if_neg hne, deadAll_deadTop]

theorem emplace_err_spec (v : Variant n A) (i : Fin n)
    (hv : v.m_Idx = s_Valueless ∨ v.m_Idx < n) (hn : n ≤ s_Valueless) :
    v.emplace i (.error ()) =
      .ctorThrown
        { m_Idx := i.val,
          m_Raw := if v.m_Idx = s_Valueless then v.m_Raw else deadTop v.m_Raw,
          dtorCalls := v.dtorCalls + (if v.m_Idx = s_Valueless then 0 else 1) } := by
  have hmod : i.val % 4294967296 = i.val := by
    have : i.val < 4294967296 := by
      have := i.isLt
      unfold s_Valueless at hn
      omega
    exact Nat.mod_eq_of_lt this
  unfold Variant.emplace
  rcases hv with hv | hv
  · rw [if_neg (by rw [hv]; exact fun h => h rfl)]
    simp [hmod, if_pos hv]
  · have hne : v.m_Idx ≠ s_Valueless := valueless_ne_of_lt v.m_Idx hv hn
    rw [if_pos (fun h => hne h.symm), dispatchDestroy_of_lt v hv]
    simp [hmod, if_neg hne]

theorem TAssign_spec (i : Fin n) (lhs rhs : Variant n A) (x : A i)
    (hval : rhs.readRaw i = some x) :
    Variant.TAssign i lhs rhs = lhs.emplace i (.ok x) := by
  unfold Variant.TAssign
  rw [hval]

theorem emplace_ok_mIdx (w : Variant n A) (j : Fin n) (y : A j)
    (hv : w.m_Idx = s_Valueless ∨ w.m_Idx < n) (hn : n ≤ s_Valueless)
    (b2 : Variant n A) (r : A j) (h : w.emplace j (.ok y) = .ok b2 r) :
    b2.m_Idx = j.val := by
  rw [emplace_ok_spec w j y hv hn] at h
  rw [Outcome.ok.injEq] at h
  obtain ⟨hb, -⟩ := h
  subst hb
  rfl

-- ***************************************************************************
-- Claim theorems.

/-- C1: constructing a Variant from a value of the alternative type at
position i (the value initializer delegating to emplace), then get for
that alternative, yields an equal value; holds_alternative is true; and
index() equals index_of(T), the position of T in the ordered alternative
list, for any duplicate-free type-code list naming the alternatives. -/
theorem value_ctor_get_holds_index {n : Nat} {A : Fin n → Type}
    (i : Fin n) (x : A i) (hn : n ≤ s_Valueless)
    {α : Type} [DecidableEq α] (T0 : α) (Ts : List α)
    (hlen : (T0 :: Ts).length = n) (hnd : (T0 :: Ts).Nodup) :
    (Variant.valueCtor (A := A) i (.ok x)).isOk = true ∧
    ∀ s r, Variant.valueCtor (A := A) i (.ok x) = .ok s r →
      r = x ∧ s.get i = .ok (some x) ∧ s.holds_alternative i = true ∧
      s.index = i.val ∧
      index_of ((T0 :: Ts).get (Fin.cast hlen.symm i)) T0 Ts = some i.val := by
  have hspec := emplace_ok_spec (Variant.mkDefault (n := n) (A := A)) i x
    (Or.inl rfl) hn
  unfold Variant.valueCtor
  rw [hspec]
  refine ⟨rfl, ?_⟩
  intro s r heq
  rw [Outcome.ok.injEq] at heq
  obtain ⟨hs, hr⟩ := heq
  subst hs
  subst hr
  refine ⟨rfl, ?_, ?_, rfl, ?_⟩
  · unfold Variant.get
    rw [if_neg (by simp)]
    simp [Variant.readRaw]
  · simp [Variant.holds_alternative]
  · have := IFromType_get 0 T0 Ts hnd (Fin.cast hlen.symm i)
    simpa [index_of] using this

/-- Witness for C1: Variant over two Nat-valued alternatives named by type
codes 5 and 7, constructed from 42 at position 0. -/
theorem value_ctor_get_holds_index_witness :
    (42 : Nat) = 42 ∧
    Variant.get (n := 2) (A := fun _ => Nat) ⟨0, [(⟨0, 42⟩, true)], 0⟩ 0 =
      .ok (some 42) ∧
    Variant.holds_alternative (n := 2) (A := fun _ => Nat)
      ⟨0, [(⟨0, 42⟩, true)], 0⟩ 0 = true ∧
    Variant.index (n := 2) (A := fun _ => Nat) ⟨0, [(⟨0, 42⟩, true)], 0⟩ = 0 ∧
    index_of (5 : Nat) 5 [7] = some 0 :=
  (value_ctor_get_holds_index (n := 2) (A := fun _ => Nat) 0 42 (by decide)
      (5 : Nat) [7] rfl (by decide)).2
    ⟨0, [(⟨0, 42⟩, true)], 0⟩ 42 (by decide)

/-- C2: the throwing accessor get raises exactly when the requested index
differs from the discriminant (carrying the requested and actual indices),
in particular always on a valueless instance, since every valid index is
below n ≤ s_Valueless; get_if and holds_alternative are total functions
(noexcept in the source) reporting the same mismatch by none / false. -/
theorem get_raises_iff_mismatch (v : Variant n A) (i : Fin n)
    (hn : n ≤ s_Valueless) :
    ((∃ e, v.get i = .error e) ↔ i.val ≠ v.m_Idx) ∧
    (i.val ≠ v.m_Idx → v.get i = .error (i.val, v.m_Idx)) ∧
    (v.get_if i = none ↔ i.val ≠ v.m_Idx) ∧
    (v.holds_alternative i = true ↔ i.val = v.m_Idx) ∧
    (v.valueless = true →
      v.get i = .error (i.val, v.m_Idx) ∧ v.get_if i = none ∧
      v.holds_alternative i = false) := by
  have hbound : i.val ≠ s_Valueless := by
    have := i.isLt
    omega
  by_cases h : i.val = v.m_Idx
  · refine ⟨?_, ?_, ?_, ?_, ?_⟩
    · simp [Variant.get, h]
    · intro hne; exact absurd h hne
    · simp [Variant.get_if, h]
    · simp [Variant.holds_alternative, h]
    · intro hvl
      have : v.m_Idx = s_Valueless := by
        simpa [Variant.valueless] using hvl
      rw [this] at h
      exact absurd h hbound
  · refine ⟨?_, ?_, ?_, ?_, ?_⟩
    · simp [Variant.get, h]
    · intro _; simp [Variant.get, h]
    · simp [Variant.get_if, h]
    · simp [Variant.holds_alternative, h]
    · intro _
      exact ⟨by simp [Variant.get, h], by simp [Variant.get_if, h],
        by simp [Variant.holds_alternative, h]⟩

/-- Witness for C2: a default-constructed (valueless) two-alternative
Variant: get raises with requested index 0 and actual the sentinel,
get_if is null, holds_alternative false. -/
theorem get_raises_iff_mismatch_witness :
    Variant.get (n := 2) (A := fun _ => Nat) Variant.mkDefault 0 =
      .error (0, s_Valueless) ∧
    Variant.get_if (n := 2) (A := fun _ => Nat) Variant.mkDefault 0 = none ∧
    Variant.holds_alternative (n := 2) (A := fun _ => Nat)
      Variant.mkDefault 0 = false :=
  (get_raises_iff_mismatch (n := 2) (A := fun _ => Nat) Variant.mkDefault 0
      (by decide)).2.2.2.2 (by decide)

/-- C3: emplace destroys the currently active value exactly once if there
is one (including when the active alternative is the emplaced type
itself, and zero times on a valueless instance), before the new value is
constructed, sets the discriminant to index_of(T) = i, and returns a
reference to the newly constructed value, which becomes the buffer's
live current object. -/
theorem emplace_destroys_once_sets_index (v : Variant n A) (i : Fin n)
    (x : A i) (hv : v.m_Idx = s_Valueless ∨ v.m_Idx < n)
    (hn : n ≤ s_Valueless) :
    (v.emplace i (.ok x)).isOk = true ∧
    ∀ s r, v.emplace i (.ok x) = .ok s r →
      r = x ∧ s.m_Idx = i.val ∧ s.index = i.val ∧
      s.m_Raw.head? = some (⟨i, x⟩, true) ∧
      s.dtorCalls = v.dtorCalls + (if v.m_Idx = s_Valueless then 0 else 1) := by
  rw [emplace_ok_spec v i x hv hn]
  refine ⟨rfl, ?_⟩
  intro s r heq
  rw [Outcome.ok.injEq] at heq
  obtain ⟨hs, hr⟩ := heq
  subst hs
  subst hr
  exact ⟨rfl, rfl, rfl, rfl, rfl⟩

/-- Witness for C3: emplacing value 7 of alternative 0 into an instance
already active at alternative 0 destroys the old value exactly once
(ghost counter 0 becomes 1) and returns the new value. -/
theorem emplace_destroys_once_sets_index_witness :
    (7 : Nat) = 7 ∧
    Variant.m_Idx (n := 2) (A := fun _ => Nat)
      ⟨0, [(⟨0, 7⟩, true), (⟨0, 42⟩, false)], 1⟩ = 0 ∧
    Variant.index (n := 2) (A := fun _ => Nat)
      ⟨0, [(⟨0, 7⟩, true), (⟨0, 42⟩, false)], 1⟩ = 0 ∧
    (Variant.m_Raw (n := 2) (A := fun _ => Nat)
      ⟨0, [(⟨0, 7⟩, true), (⟨0, 42⟩, false)], 1⟩).head? = some (⟨0, 7⟩, true) ∧
    Variant.dtorCalls (n := 2) (A := fun _ => Nat)
      ⟨0, [(⟨0, 7⟩, true), (⟨0, 42⟩, false)], 1⟩ = 0 + 1 :=
  (emplace_destroys_once_sets_index (n := 2) (A := fun _ => Nat)
      ⟨0, [(⟨0, 42⟩, true)], 0⟩ 0 7 (Or.inr (by decide)) (by decide)).2
    ⟨0, [(⟨0, 7⟩, true), (⟨0, 42⟩, false)], 1⟩ 7 (by decide)

/-- C4 counterexample: a Variant over two Nat alternatives holding 42 at
alternative 0, asked to emplace alternative 1 with a constructor that
throws, is left with discriminant 1 — the index of the new alternative,
not the valueless sentinel — so the failure does not leave the instance
valueless as the claim states. -/
theorem emplace_failure_not_sentinel_cex :
    Variant.emplace (n := 2) (A := fun _ => Nat)
        ⟨0, [(⟨0, 42⟩, true)], 0⟩ 1 (.error ()) =
      .ctorThrown ⟨1, [(⟨0, 42⟩, false)], 1⟩ ∧
    (1 : Nat) ≠ s_Valueless ∧
    Variant.valueless (n := 2) (A := fun _ => Nat)
      ⟨1, [(⟨0, 42⟩, false)], 1⟩ = false := by
  exact ⟨by decide, by decide, by decide⟩

/-- C4 (amended): when the new alternative's constructor fails inside
emplace — the single funnel through which value construction, copy, move
and assignment construct alternatives — the failure propagates unchanged
to the caller (the outcome is the constructor's exception, not caught or
wrapped); the previous active value has already been destroyed exactly
once before the construction attempt; and the discriminant has been set,
before attempting construction, to the NEW alternative's index rather
than to the valueless sentinel, so the failed instance claims the new
alternative over a destroyed buffer instead of being safely valueless. -/
theorem emplace_failure_spec (v : Variant n A) (i : Fin n)
    (hv : v.m_Idx = s_Valueless ∨ v.m_Idx < n) (hn : n ≤ s_Valueless) :
    (v.emplace i (.error ())).isCtorThrown = true ∧
    ∀ s, v.emplace i (.error ()) = .ctorThrown s →
      s.m_Idx = i.val ∧ s.m_Idx ≠ s_Valueless ∧ s.valueless = false ∧
      s.dtorCalls = v.dtorCalls + (if v.m_Idx = s_Valueless then 0 else 1) ∧
      s.m_Raw = (if v.m_Idx = s_Valueless then v.m_Raw else deadTop v.m_Raw) := by
  have hbound : i.val ≠ s_Valueless := by
    have := i.isLt
    omega
  rw [emplace_err_spec v i hv hn]
  refine ⟨rfl, ?_⟩
  intro s heq
  rw [Outcome.ctorThrown.injEq] at heq
  subst heq
  exact ⟨rfl, hbound, by simp [Variant.valueless, hbound], rfl, rfl⟩

/-- Witness for C4 (amended), at the same concrete input as the
counterexample. -/
theorem emplace_failure_spec_witness :
    Variant.m_Idx (n := 2) (A := fun _ => Nat) ⟨1, [(⟨0, 42⟩, false)], 1⟩ =
      (1 : Fin 2).val ∧
    Variant.m_Idx (n := 2) (A := fun _ => Nat) ⟨1, [(⟨0, 42⟩, false)], 1⟩ ≠
      s_Valueless ∧
    Variant.valueless (n := 2) (A := fun _ => Nat)
      ⟨1, [(⟨0, 42⟩, false)], 1⟩ = false ∧
    Variant.dtorCalls (n := 2) (A := fun _ => Nat)
      ⟨1, [(⟨0, 42⟩, false)], 1⟩ = 0 + 1 ∧
    Variant.m_Raw (n := 2) (A := fun _ => Nat) ⟨1, [(⟨0, 42⟩, false)], 1⟩ =
      [(⟨0, 42⟩, false)] :=
  (emplace_failure_spec (n := 2) (A := fun _ => Nat)
      ⟨0, [(⟨0, 42⟩, true)], 0⟩ 1 (Or.inr (by decide)) (by decide)).2
    ⟨1, [(⟨0, 42⟩, false)], 1⟩ (by decide)

/-- C5: move-constructing b from an instance a holding the alternative at
its discriminant yields b with the same discriminant holding a's original
value, and afterwards a is valueless: valueless() is true and index()
equals the sentinel. -/
theorem move_ctor_transfers_and_empties_source (v : Variant n A)
    (hlt : v.m_Idx < n) (x : A ⟨v.m_Idx, hlt⟩) (hn : n ≤ s_Valueless)
    (hval : v.readRaw ⟨v.m_Idx, hlt⟩ = some x) :
    (Variant.moveCtor v).isOk = true ∧
    ∀ b a2, Variant.moveCtor v = .ok (b, a2) () →
      b.m_Idx = v.m_Idx ∧ b.index = v.m_Idx ∧
      b.get ⟨v.m_Idx, hlt⟩ = .ok (some x) ∧
      a2.valueless = true ∧ a2.index = s_Valueless := by
  have hbound : v.m_Idx ≠ s_Valueless := by omega
  unfold Variant.moveCtor
  rw [if_neg (fun h => hbound h.symm), dif_pos hlt]
  rw [TAssign_spec ⟨v.m_Idx, hlt⟩ Variant.mkDefault v x hval]
  rw [emplace_ok_spec Variant.mkDefault ⟨v.m_Idx, hlt⟩ x (Or.inl rfl) hn]
  refine ⟨rfl, ?_⟩
  intro b a2 heq
  rw [Outcome.ok.injEq, Prod.mk.injEq] at heq
  obtain ⟨⟨hb, ha⟩, -⟩ := heq
  subst hb
  subst ha
  refine ⟨rfl, rfl, ?_, ?_, rfl⟩
  · unfold Variant.get
    rw [if_neg (by simp)]
    simp [Variant.readRaw]
  · simp [Variant.valueless]

/-- Witness for C5 over a single-alternative Variant holding 42: the
target holds 42 at index 0 and the source reads valueless with sentinel
index. -/
theorem move_ctor_transfers_and_empties_source_witness :
    Variant.m_Idx (n := 1) (A := fun _ => Nat) ⟨0, [(⟨0, 42⟩, true)], 0⟩ =
      (0 : Fin 1).val ∧
    Variant.index (n := 1) (A := fun _ => Nat) ⟨0, [(⟨0, 42⟩, true)], 0⟩ =
      (0 : Fin 1).val ∧
    Variant.get (n := 1) (A := fun _ => Nat) ⟨0, [(⟨0, 42⟩, true)], 0⟩ 0 =
      .ok (some 42) ∧
    Variant.valueless (n := 1) (A := fun _ => Nat)
      ⟨s_Valueless, [(⟨0, 42⟩, true)], 0⟩ = true ∧
    Variant.index (n := 1) (A := fun _ => Nat)
      ⟨s_Valueless, [(⟨0, 42⟩, true)], 0⟩ = s_Valueless :=
  (move_ctor_transfers_and_empties_source (n := 1) (A := fun _ => Nat)
      ⟨0, [(⟨0, 42⟩, true)], 0⟩ (by decide) 42 (by decide) (by decide)).2
    ⟨0, [(⟨0, 42⟩, true)], 0⟩ ⟨s_Valueless, [(⟨0, 42⟩, true)], 0⟩ (by decide)

/-- C6: copy construction leaves the source unchanged (the copy path only
reads the source: a valueless source yields a valueless copy, an active
source yields a copy with the same discriminant and value), and the copy
owns an independent value: emplacing into the copy afterwards leaves the
source's discriminant and value as they were (in this embedding each
instance's state is a separate value, reflecting the disjoint buffers of
distinct instances). -/
theorem copy_ctor_replicates_and_is_independent (v : Variant n A)
    (hn : n ≤ s_Valueless) :
    (v.m_Idx = s_Valueless → Variant.copyCtor v = .ok Variant.mkDefault ()) ∧
    (∀ (hlt : v.m_Idx < n) (x : A ⟨v.m_Idx, hlt⟩),
      v.readRaw ⟨v.m_Idx, hlt⟩ = some x →
      (Variant.copyCtor v).isOk = true ∧
      ∀ b, Variant.copyCtor v = .ok b () →
        b.m_Idx = v.m_Idx ∧ b.get ⟨v.m_Idx, hlt⟩ = .ok (some x) ∧
        ∀ (j : Fin n) (y : A j) b2 r, b.emplace j (.ok y) = .ok b2 r →
          v.m_Idx = v.m_Idx ∧ v.readRaw ⟨v.m_Idx, hlt⟩ = some x ∧
          b2.m_Idx = j.val) := by
  constructor
  · intro hvl
    unfold Variant.copyCtor
    rw [if_pos hvl.symm]
  · intro hlt x hval
    have hbound : v.m_Idx ≠ s_Valueless := by omega
    unfold Variant.copyCtor
    rw [if_neg (fun h => hbound h.symm), dif_pos hlt]
    rw [TAssign_spec ⟨v.m_Idx, hlt⟩ Variant.mkDefault v x hval]
    rw [emplace_ok_spec Variant.mkDefault ⟨v.m_Idx, hlt⟩ x (Or.inl rfl) hn]
    refine ⟨rfl, ?_⟩
    intro b heq
    rw [Outcome.ok.injEq] at heq
    obtain ⟨hb, -⟩ := heq
    subst hb
    refine ⟨rfl, ?_, ?_⟩
    · unfold Variant.get
      rw [if_neg (by simp)]
      simp [Variant.readRaw]
    · intro j y b2 r heq2
      refine ⟨rfl, hval, emplace_ok_mIdx _ j y ?_ hn b2 r heq2⟩
      exact Or.inr hlt

/-- Witness for C6: copying a single-alternative Variant holding 42, then
emplacing 9 into the copy; the source still reads 42 at discriminant 0. -/
theorem copy_ctor_replicates_and_is_independent_witness :
    Variant.m_Idx (n := 1) (A := fun _ => Nat) ⟨0, [(⟨0, 42⟩, true)], 0⟩ =
      Variant.m_Idx (n := 1) (A := fun _ => Nat) ⟨0, [(⟨0, 42⟩, true)], 0⟩ ∧
    Variant.readRaw (n := 1) (A := fun _ => Nat)
      ⟨0, [(⟨0, 42⟩, true)], 0⟩ 0 = some 42 ∧
    Variant.m_Idx (n := 1) (A := fun _ => Nat)
      ⟨0, [(⟨0, 9⟩, true), (⟨0, 42⟩, false)], 1⟩ = (0 : Fin 1).val :=
  (((copy_ctor_replicates_and_is_independent (n := 1) (A := fun _ => Nat)
        ⟨0, [(⟨0, 42⟩, true)], 0⟩ (by decide)).2 (by decide) 42 (by decide)).2
      ⟨0, [(⟨0, 42⟩, true)], 0⟩ (by decide)).2.2
    0 9 ⟨0, [(⟨0, 9⟩, true), (⟨0, 42⟩, false)], 1⟩ 9 (by decide)

/-- C9: move-assigning an active instance to itself (a = move(a)) takes
the non-valueless branch, re-emplaces the instance's own value, and then
the trailing write other.m_Idx = s_Valueless lands on the same object, so
a ends up reporting valueless() true and index() the sentinel: the held
value is not retained even though source and target are the same object. -/
theorem self_move_assign_reports_valueless (a : Variant n A)
    (hlt : a.m_Idx < n) (x : A ⟨a.m_Idx, hlt⟩) (hn : n ≤ s_Valueless)
    (hval : a.readRaw ⟨a.m_Idx, hlt⟩ = some x) :
    (Variant.moveAssignSelf a).isOk = true ∧
    ∀ s, Variant.moveAssignSelf a = .ok s () →
      s.valueless = true ∧ s.index = s_Valueless ∧
      s.holds_alternative ⟨a.m_Idx, hlt⟩ = false := by
  have hbound : a.m_Idx ≠ s_Valueless := by omega
  unfold Variant.moveAssignSelf
  rw [if_neg (fun h => hbound h.symm), dif_pos hlt]
  rw [TAssign_spec ⟨a.m_Idx, hlt⟩ a a x hval]
  rw [emplace_ok_spec a ⟨a.m_Idx, hlt⟩ x (Or.inr hlt) hn]
  refine ⟨rfl, ?_⟩
  intro s heq
  rw [Outcome.ok.injEq] at heq
  obtain ⟨hs, -⟩ := heq
  subst hs
  refine ⟨by simp [Variant.valueless], rfl, ?_⟩
  simp [Variant.holds_alternative, hbound]

/-- Witness for C9: self-move-assignment of a two-alternative Variant
holding 42 at alternative 0 ends valueless with sentinel index. -/
theorem self_move_assign_reports_valueless_witness :
    Variant.valueless (n := 2) (A := fun _ => Nat)
      ⟨s_Valueless, [(⟨0, 42⟩, true), (⟨0, 42⟩, false)], 1⟩ = true ∧
    Variant.index (n := 2) (A := fun _ => Nat)
      ⟨s_Valueless, [(⟨0, 42⟩, true), (⟨0, 42⟩, false)], 1⟩ = s_Valueless ∧
    Variant.holds_alternative (n := 2) (A := fun _ => Nat)
      ⟨s_Valueless, [(⟨0, 42⟩, true), (⟨0, 42⟩, false)], 1⟩ 0 = false :=
  (self_move_assign_reports_valueless (n := 2) (A := fun _ => Nat)
      ⟨0, [(⟨0, 42⟩, true)], 0⟩ (by decide) 42 (by decide) (by decide)).2
    ⟨s_Valueless, [(⟨0, 42⟩, true), (⟨0, 42⟩, false)], 1⟩ (by decide)

theorem emplace_not_destroyThrew (v : Variant n A) (i : Fin n)
    (c : Except Unit (A i)) : (v.emplace i c).destroyThrew = false := by
  unfold Variant.emplace
  by_cases h : s_Valueless ≠ v.m_Idx
  · rw [if_pos h]
    cases hd : v.dispatchDestroy with
    | ok s r => cases c <;> rfl
    | ctorThrown s => rfl
    | destroyGetThrew a b =>
        have hnd := dispatchDestroy_not_destroyThrew v
        rw [hd] at hnd
        cases hnd
    | oob j => rfl
    | ubRead => rfl
  · rw [if_neg h]
    cases c <;> rfl

theorem TAssign_not_destroyThrew (i : Fin n) (lhs rhs : Variant n A) :
    (Variant.TAssign i lhs rhs).destroyThrew = false := by
  unfold Variant.TAssign
  cases rhs.readRaw i with
  | none => rfl
  | some x => exact emplace_not_destroyThrew lhs i (.ok x)

/-- C10: the destroy dispatch table is only ever indexed with, and its
entry applied to, the instance's current discriminant
(s_Destructors[m_Idx](this) in the destructor, in emplace and in both
assignment operators), so the get call inside TDestructor compares equal
indices and never takes its throwing branch: applied at the discriminant
it always succeeds, and no public operation ever produces the
destroy-get-threw (terminate) outcome. -/
theorem destroy_dispatch_never_throws (v a b : Variant n A) (i : Fin n)
    (c : Except Unit (A i)) (h : v.m_Idx < n) :
    Variant.TDestructor ⟨v.m_Idx, h⟩ v =
      .ok { v with m_Raw := deadTop v.m_Raw, dtorCalls := v.dtorCalls + 1 } ∧
    (Variant.destructor v).destroyThrew = false ∧
    (v.emplace i c).destroyThrew = false ∧
    (Variant.copyAssign a b).destroyThrew = false ∧
    (Variant.copyAssignSelf a).destroyThrew = false ∧
    (Variant.moveAssign a b).destroyThrew = false ∧
    (Variant.moveAssignSelf a).destroyThrew = false ∧
    (Variant.copyCtor b).destroyThrew = false ∧
    (Variant.moveCtor b).destroyThrew = false := by
  refine ⟨?_, ?_, emplace_not_destroyThrew v i c, ?_, ?_, ?_, ?_, ?_, ?_⟩
  · unfold Variant.TDestructor Variant.get
    simp
  · unfold Variant.destructor
    by_cases hv : s_Valueless = v.m_Idx
    · rw [if_pos hv]; rfl
    · rw [if_neg hv]; exact dispatchDestroy_not_destroyThrew v
  · unfold Variant.copyAssign
    by_cases hb : s_Valueless = b.m_Idx
    · rw [if_pos hb]
      by_cases ha : s_Valueless ≠ a.m_Idx
      · rw [if_pos ha]
        cases hd : a.dispatchDestroy with
        | ok s r => rfl
        | ctorThrown s => rfl
        | destroyGetThrew x y =>
            have hnd := dispatchDestroy_not_destroyThrew a
            rw [hd] at hnd
            cases hnd
        | oob j => rfl
        | ubRead => rfl
      · rw [if_neg ha]; rfl
    · rw [if_neg hb]
      by_cases hlt : b.m_Idx < n
      · rw [dif_pos hlt]
        cases ht : Variant.TAssign ⟨b.m_Idx, hlt⟩ a b with
        | ok s r => rfl
        | ctorThrown s => rfl
        | destroyGetThrew x y =>
            have hnd := TAssign_not_destroyThrew ⟨b.m_Idx, hlt⟩ a b
            rw [ht] at hnd
            cases hnd
        | oob j => rfl
        | ubRead => rfl
      · rw [dif_neg hlt]; rfl
  · unfold Variant.copyAssignSelf
    by_cases hb : s_Valueless = a.m_Idx
    · rw [if_pos hb]; rfl
    · rw [if_neg hb]
      by_cases hlt : a.m_Idx < n
      · rw [dif_pos hlt]
        cases ht : Variant.TAssign ⟨a.m_Idx, hlt⟩ a a with
        | ok s r => rfl
        | ctorThrown s => rfl
        | destroyGetThrew x y =>
            have hnd := TAssign_not_destroyThrew ⟨a.m_Idx, hlt⟩ a a
            rw [ht] at hnd
            cases hnd
        | oob j => rfl
        | ubRead => rfl
      · rw [dif_neg hlt]; rfl
  · unfold Variant.moveAssign
    by_cases hb : s_Valueless = b.m_Idx
    · rw [if_pos hb]
      by_cases ha : s_Valueless ≠ a.m_Idx
      · rw [if_pos ha]
        cases hd : a.dispatchDestroy with
        | ok s r => rfl
        | ctorThrown s => rfl
        | destroyGetThrew x y =>
            have hnd := dispatchDestroy_not_destroyThrew a
            rw [hd] at hnd
            cases hnd
        | oob j => rfl
        | ubRead => rfl
      · rw [if_neg ha]; rfl
    · rw [if_neg hb]
      by_cases hlt : b.m_Idx < n
      · rw [dif_pos hlt]
        cases ht : Variant.TAssign ⟨b.m_Idx, hlt⟩ a b with
        | ok s r => rfl
        | ctorThrown s => rfl
        | destroyGetThrew x y =>
            have hnd := TAssign_not_destroyThrew ⟨b.m_Idx, hlt⟩ a b
            rw [ht] at hnd
            cases hnd
        | oob j => rfl
        | ubRead => rfl
      · rw [dif_neg hlt]; rfl
  · unfold Variant.moveAssignSelf
    by_cases hb : s_Valueless = a.m_Idx
    · rw [if_pos hb]; rfl
    · rw [if_neg hb]
      by_cases hlt : a.m_Idx < n
      · rw [dif_pos hlt]
        cases ht : Variant.TAssign ⟨a.m_Idx, hlt⟩ a a with
        | ok s r => rfl
        | ctorThrown s => rfl
        | destroyGetThrew x y =>
            have hnd := TAssign_not_destroyThrew ⟨a.m_Idx, hlt⟩ a a
            rw [ht] at hnd
            cases hnd
        | oob j => rfl
        | ubRead => rfl
      · rw [dif_neg hlt]; rfl
  · unfold Variant.copyCtor
    by_cases hb : s_Valueless = b.m_Idx
    · rw [if_pos hb]; rfl
    · rw [if_neg hb]
      by_cases hlt : b.m_Idx < n
      · rw [dif_pos hlt]
        cases ht : Variant.TAssign ⟨b.m_Idx, hlt⟩ Variant.mkDefault b with
        | ok s r => rfl
        | ctorThrown s => rfl
        | destroyGetThrew x y =>
            have hnd := TAssign_not_destroyThrew ⟨b.m_Idx, hlt⟩ Variant.mkDefault b
            rw [ht] at hnd
            cases hnd
        | oob j => rfl
        | ubRead => rfl
      · rw [dif_neg hlt]; rfl
  · unfold Variant.moveCtor
    by_cases hb : s_Valueless = b.m_Idx
    · rw [if_pos hb]; rfl
    · rw [if_neg hb]
      by_cases hlt : b.m_Idx < n
      · rw [dif_pos hlt]
        cases ht : Variant.TAssign ⟨b.m_Idx, hlt⟩ Variant.mkDefault b with
        | ok s r => rfl
        | ctorThrown s => rfl
        | destroyGetThrew x y =>
            have hnd := TAssign_not_destroyThrew ⟨b.m_Idx, hlt⟩ Variant.mkDefault b
            rw [ht] at hnd
            cases hnd
        | oob j => rfl
        | ubRead => rfl
      · rw [dif_neg hlt]; rfl

/-- Witness for C10 at concrete instances: an active instance destroyed at
its own discriminant, and the operations on concrete states. -/
theorem destroy_dispatch_never_throws_witness :
    Variant.TDestructor (n := 1) (A := fun _ => Nat) 0
        ⟨0, [(⟨0, 42⟩, true)], 0⟩ =
      .ok ⟨0, [(⟨0, 42⟩, false)], 1⟩ ∧
    (Variant.destructor (n := 1) (A := fun _ => Nat)
      ⟨0, [(⟨0, 42⟩, true)], 0⟩).destroyThrew = false ∧
    (Variant.emplace (n := 1) (A := fun _ => Nat) ⟨0, [(⟨0, 42⟩, true)], 0⟩
      0 (.ok 7)).destroyThrew = false ∧
    (Variant.copyAssign (n := 1) (A := fun _ => Nat) Variant.mkDefault
      ⟨0, [(⟨0, 42⟩, true)], 0⟩).destroyThrew = false ∧
    (Variant.copyAssignSelf (n := 1) (A := fun _ => Nat)
      Variant.mkDefault).destroyThrew = false ∧
    (Variant.moveAssign (n := 1) (A := fun _ => Nat) Variant.mkDefault
      ⟨0, [(⟨0, 42⟩, true)], 0⟩).destroyThrew = false ∧
    (Variant.moveAssignSelf (n := 1) (A := fun _ => Nat)
      Variant.mkDefault).destroyThrew = false ∧
    (Variant.copyCtor (n := 1) (A := fun _ => Nat)
      ⟨0, [(⟨0, 42⟩, true)], 0⟩).destroyThrew = false ∧
    (Variant.moveCtor (n := 1) (A := fun _ => Nat)
      ⟨0, [(⟨0, 42⟩, true)], 0⟩).destroyThrew = false :=
  destroy_dispatch_never_throws (n := 1) (A := fun _ => Nat)
    ⟨0, [(⟨0, 42⟩, true)], 0⟩ Variant.mkDefault ⟨0, [(⟨0, 42⟩, true)], 0⟩
    0 (.ok 7) (by decide)

-- ***************************************************************************
-- The state invariant over reachable states.

theorem deadAll_mem_false {γ : Type} (l : List (γ × Bool)) :
    ∀ p ∈ deadAll l, p.2 = false := by
  intro p hp
  rcases List.mem_map.mp hp with ⟨q, -, rfl⟩
  rfl

theorem deadTop_tail {γ : Type} (l : List (γ × Bool)) :
    (deadTop l).tail = l.tail := by
  cases l with
  | nil => rfl
  | cons p t => cases p; rfl

theorem Inv_mkDefault : Inv (Variant.mkDefault (n := n) (A := A)) :=
  ⟨fun p hp => absurd hp (List.not_mem_nil p), fun h => absurd rfl h⟩

theorem Inv_validIdx (v : Variant n A) (hi : Inv v) :
    v.m_Idx = s_Valueless ∨ v.m_Idx < n := by
  by_cases h : v.m_Idx = s_Valueless
  · exact Or.inl h
  · rcases hi.2 h with ⟨hlt, -, -⟩
    exact Or.inr hlt

theorem Inv_emplacePost (_hn : n ≤ s_Valueless) (i : Fin n) (x : A i)
    (l : List (Sigma A × Bool)) (d : Nat) :
    Inv (⟨i.val, (⟨i, x⟩, true) :: deadAll l, d⟩ : Variant n A) := by
  constructor
  · intro p hp
    exact deadAll_mem_false l p hp
  · intro _
    exact ⟨i.isLt, x, rfl⟩

theorem Inv_set_sentinel (v : Variant n A) (hi : Inv v) :
    Inv { v with m_Idx := s_Valueless } :=
  ⟨hi.1, fun h => absurd rfl h⟩

theorem Inv_destroyed_sentinel (v : Variant n A) (hi : Inv v) (d : Nat) :
    Inv (⟨s_Valueless, deadTop v.m_Raw, d⟩ : Variant n A) := by
  constructor
  · intro p hp
    apply hi.1
    rw [← deadTop_tail v.m_Raw]
    exact hp
  · intro h
    exact absurd rfl h

theorem Inv_emplaced_sentinel (_hn : n ≤ s_Valueless) (i : Fin n) (x : A i)
    (l : List (Sigma A × Bool)) (d : Nat) :
    Inv (⟨s_Valueless, (⟨i, x⟩, true) :: deadAll l, d⟩ : Variant n A) := by
  constructor
  · intro p hp
    exact deadAll_mem_false l p hp
  · intro h
    exact absurd rfl h

theorem emplace_ok_Inv (v : Variant n A) (i : Fin n) (x : A i)
    (hi : Inv v) (hn : n ≤ s_Valueless) (s : Variant n A) (r : A i)
    (heq : v.emplace i (.ok x) = .ok s r) : Inv s := by
  rw [emplace_ok_spec v i x (Inv_validIdx v hi) hn] at heq
  rw [Outcome.ok.injEq] at heq
  obtain ⟨hs, -⟩ := heq
  subst hs
  exact Inv_emplacePost hn i x v.m_Raw _

theorem liveEntries_le_one (v : Variant n A) (hi : Inv v) :
    (liveEntries v).length ≤ 1 := by
  unfold liveEntries
  rw [List.length_map]
  cases hr : v.m_Raw with
  | nil => simp
  | cons p t =>
      have ht : ∀ q ∈ t, q.2 = false := by
        intro q hq
        apply hi.1
        rw [hr]
        exact hq
      have htf : t.filter (fun q => q.2) = [] := by
        rw [List.filter_eq_nil_iff]
        intro q hq
        rw [ht q hq]
        simp
      rw [List.filter_cons]
      by_cases hp : p.2 = true
      · simp [hp, htf]
      · simp [hp, htf]

/-- Every reachable state satisfies the maintained invariant Inv. -/
theorem reachable_Inv (hn : n ≤ s_Valueless) (v : Variant n A)
    (hr : Reachable v) : Inv v := by
  induction hr with
  | default_ctor => exact Inv_mkDefault
  | value_ctor i x s r heq =>
      exact emplace_ok_Inv Variant.mkDefault i x Inv_mkDefault hn s r heq
  | emplace_op w i x s r hrw heq ih =>
      exact emplace_ok_Inv w i x ih hn s r heq
  | copy_ctor w s hrw heq ih =>
      by_cases hvl : s_Valueless = w.m_Idx
      · have hcc : Variant.copyCtor w = .ok Variant.mkDefault () := by
          unfold Variant.copyCtor
          rw [if_pos hvl]
        rw [hcc] at heq
        rw [Outcome.ok.injEq] at heq
        obtain ⟨hs, -⟩ := heq
        subst hs
        exact Inv_mkDefault
      · have hne : w.m_Idx ≠ s_Valueless := fun h => hvl h.symm
        rcases ih.2 hne with ⟨hlt, x, hhead⟩
        have hval : w.readRaw ⟨w.m_Idx, hlt⟩ = some x :=
          readRaw_head w _ x true hhead
        have hcc : Variant.copyCtor w =
            .ok { m_Idx := (⟨w.m_Idx, hlt⟩ : Fin n).val,
                  m_Raw := (⟨⟨w.m_Idx, hlt⟩, x⟩, true) ::
                    deadAll (Variant.mkDefault (n := n) (A := A)).m_Raw,
                  dtorCalls := (Variant.mkDefault (n := n) (A := A)).dtorCalls +
                    (if (Variant.mkDefault (n := n) (A := A)).m_Idx =
                        s_Valueless then 0 else 1) } () := by
          unfold Variant.copyCtor
          rw [if_neg hvl, dif_pos hlt,
            TAssign_spec ⟨w.m_Idx, hlt⟩ Variant.mkDefault w x hval,
            emplace_ok_spec Variant.mkDefault ⟨w.m_Idx, hlt⟩ x (Or.inl rfl) hn]
        rw [hcc] at heq
        rw [Outcome.ok.injEq] at heq
        obtain ⟨hs, -⟩ := heq
        subst hs
        exact Inv_emplacePost hn ⟨w.m_Idx, hlt⟩ x _ _
  | move_ctor_dst w s s2 hrw heq ih =>
      by_cases hvl : s_Valueless = w.m_Idx
      · have hmc : Variant.moveCtor w = .ok (Variant.mkDefault, w) () := by
          unfold Variant.moveCtor
          rw [if_pos hvl]
        rw [hmc] at heq
        rw [Outcome.ok.injEq, Prod.mk.injEq] at heq
        obtain ⟨⟨hs, -⟩, -⟩ := heq
        subst hs
        exact Inv_mkDefault
      · have hne : w.m_Idx ≠ s_Valueless := fun h => hvl h.symm
        rcases ih.2 hne with ⟨hlt, x, hhead⟩
        have hval : w.readRaw ⟨w.m_Idx, hlt⟩ = some x :=
          readRaw_head w _ x true hhead
        have hmc : Variant.moveCtor w =
            .ok ({ m_Idx := (⟨w.m_Idx, hlt⟩ : Fin n).val,
                   m_Raw := (⟨⟨w.m_Idx, hlt⟩, x⟩, true) ::
                     deadAll (Variant.mkDefault (n := n) (A := A)).m_Raw,
                   dtorCalls := (Variant.mkDefault (n := n) (A := A)).dtorCalls +
                     (if (Variant.mkDefault (n := n) (A := A)).m_Idx =
                         s_Valueless then 0 else 1) },
                 { w with m_Idx := s_Valueless }) () := by
          unfold Variant.moveCtor
          rw [if_neg hvl, dif_pos hlt,
            TAssign_spec ⟨w.m_Idx, hlt⟩ Variant.mkDefault w x hval,
            emplace_ok_spec Variant.mkDefault ⟨w.m_Idx, hlt⟩ x (Or.inl rfl) hn]
        rw [hmc] at heq
        rw [Outcome.ok.injEq, Prod.mk.injEq] at heq
        obtain ⟨⟨hs, -⟩, -⟩ := heq
        subst hs
        exact Inv_emplacePost hn ⟨w.m_Idx, hlt⟩ x _ _
  | move_ctor_src w s s2 hrw heq ih =>
      by_cases hvl : s_Valueless = w.m_Idx
      · have hmc : Variant.moveCtor w = .ok (Variant.mkDefault, w) () := by
          unfold Variant.moveCtor
          rw [if_pos hvl]
        rw [hmc] at heq
        rw [Outcome.ok.injEq, Prod.mk.injEq] at heq
        obtain ⟨⟨-, hs2⟩, -⟩ := heq
        subst hs2
        exact ih
      · have hne : w.m_Idx ≠ s_Valueless := fun h => hvl h.symm
        rcases ih.2 hne with ⟨hlt, x, hhead⟩
        have hval : w.readRaw ⟨w.m_Idx, hlt⟩ = some x :=
          readRaw_head w _ x true hhead
        have hmc : Variant.moveCtor w =
            .ok ({ m_Idx := (⟨w.m_Idx, hlt⟩ : Fin n).val,
                   m_Raw := (⟨⟨w.m_Idx, hlt⟩, x⟩, true) ::
                     deadAll (Variant.mkDefault (n := n) (A := A)).m_Raw,
                   dtorCalls := (Variant.mkDefault (n := n) (A := A)).dtorCalls +
                     (if (Variant.mkDefault (n := n) (A := A)).m_Idx =
                         s_Valueless then 0 else 1) },
                 { w with m_Idx := s_Valueless }) () := by
          unfold Variant.moveCtor
          rw [if_neg hvl, dif_pos hlt,
            TAssign_spec ⟨w.m_Idx, hlt⟩ Variant.mkDefault w x hval,
            emplace_ok_spec Variant.mkDefault ⟨w.m_Idx, hlt⟩ x (Or.inl rfl) hn]
        rw [hmc] at heq
        rw [Outcome.ok.injEq, Prod.mk.injEq] at heq
        obtain ⟨⟨-, hs2⟩, -⟩ := heq
        subst hs2
        exact Inv_set_sentinel w ih
  | copy_assign a b s hra hrb heq iha ihb =>
      by_cases hvl : s_Valueless = b.m_Idx
      · by_cases hav : s_Valueless = a.m_Idx
        · have hca : Variant.copyAssign a b = .ok { a with m_Idx := s_Valueless } () := by
            unfold Variant.copyAssign
            rw [if_pos hvl, if_neg (fun h => h hav)]
          rw [hca] at heq
          rw [Outcome.ok.injEq] at heq
          obtain ⟨hs, -⟩ := heq
          subst hs
          exact Inv_set_sentinel a iha
        · have hlta : a.m_Idx < n := by
            rcases Inv_validIdx a iha with h | h
            · exact absurd h.symm hav
            · exact h
          have hca : Variant.copyAssign a b =
              .ok (⟨s_Valueless, deadTop a.m_Raw, a.dtorCalls + 1⟩ : Variant n A) () := by
            unfold Variant.copyAssign
            rw [if_pos hvl, if_pos hav, dispatchDestroy_of_lt a hlta]
          rw [hca] at heq
          rw [Outcome.ok.injEq] at heq
          obtain ⟨hs, -⟩ := heq
          subst hs
          exact Inv_destroyed_sentinel a iha _
      · have hne : b.m_Idx ≠ s_Valueless := fun h => hvl h.symm
        rcases ihb.2 hne with ⟨hlt, x, hhead⟩
        have hval : b.readRaw ⟨b.m_Idx, hlt⟩ = some x :=
          readRaw_head b _ x true hhead
        have hca : Variant.copyAssign a b =
            .ok { m_Idx := (⟨b.m_Idx, hlt⟩ : Fin n).val,
                  m_Raw := (⟨⟨b.m_Idx, hlt⟩, x⟩, true) :: deadAll a.m_Raw,
                  dtorCalls := a.dtorCalls +
                    (if a.m_Idx = s_Valueless then 0 else 1) } () := by
          unfold Variant.copyAssign
          rw [if_neg hvl, dif_pos hlt,
            TAssign_spec ⟨b.m_Idx, hlt⟩ a b x hval,
            emplace_ok_spec a ⟨b.m_Idx, hlt⟩ x (Inv_validIdx a iha) hn]
        rw [hca] at heq
        rw [Outcome.ok.injEq] at heq
        obtain ⟨hs, -⟩ := heq
        subst hs
        exact Inv_emplacePost hn ⟨b.m_Idx, hlt⟩ x _ _
  | copy_assign_self a s hra heq ih =>
      by_cases hvl : s_Valueless = a.m_Idx
      · have hca : Variant.copyAssignSelf a = .ok { a with m_Idx := s_Valueless } () := by
          unfold Variant.copyAssignSelf
          rw [if_pos hvl]
        rw [hca] at heq
        rw [Outcome.ok.injEq] at heq
        obtain ⟨hs, -⟩ := heq
        subst hs
        exact Inv_set_sentinel a ih
      · have hne : a.m_Idx ≠ s_Valueless := fun h => hvl h.symm
        rcases ih.2 hne with ⟨hlt, x, hhead⟩
        have hval : a.readRaw ⟨a.m_Idx, hlt⟩ = some x :=
          readRaw_head a _ x true hhead
        have hca : Variant.copyAssignSelf a =
            .ok { m_Idx := (⟨a.m_Idx, hlt⟩ : Fin n).val,
                  m_Raw := (⟨⟨a.m_Idx, hlt⟩, x⟩, true) :: deadAll a.m_Raw,
                  dtorCalls := a.dtorCalls +
                    (if a.m_Idx = s_Valueless then 0 else 1) } () := by
          unfold Variant.copyAssignSelf
          rw [if_neg hvl, dif_pos hlt,
            TAssign_spec ⟨a.m_Idx, hlt⟩ a a x hval,
            emplace_ok_spec a ⟨a.m_Idx, hlt⟩ x (Or.inr hlt) hn]
        rw [hca] at heq
        rw [Outcome.ok.injEq] at heq
        obtain ⟨hs, -⟩ := heq
        subst hs
        exact Inv_emplacePost hn ⟨a.m_Idx, hlt⟩ x _ _
  | move_assign_dst a b s s2 hra hrb heq iha ihb =>
      by_cases hvl : s_Valueless = b.m_Idx
      · by_cases hav : s_Valueless = a.m_Idx
        · have hma : Variant.moveAssign a b =
              .ok ({ a with m_Idx := s_Valueless }, b) () := by
            unfold Variant.moveAssign
            rw [if_pos hvl, if_neg (fun h => h hav)]
          rw [hma] at heq
          rw [Outcome.ok.injEq, Prod.mk.injEq] at heq
          obtain ⟨⟨hs, -⟩, -⟩ := heq
          subst hs
          exact Inv_set_sentinel a iha
        · have hlta : a.m_Idx < n := by
            rcases Inv_validIdx a iha with h | h
            · exact absurd h.symm hav
            · exact h
          have hma : Variant.moveAssign a b =
              .ok ((⟨s_Valueless, deadTop a.m_Raw, a.dtorCalls + 1⟩ : Variant n A),
                b) () := by
            unfold Variant.moveAssign
            rw [if_pos hvl, if_pos hav, dispatchDestroy_of_lt a hlta]
          rw [hma] at heq
          rw [Outcome.ok.injEq, Prod.mk.injEq] at heq
          obtain ⟨⟨hs, -⟩, -⟩ := heq
          subst hs
          exact Inv_destroyed_sentinel a iha _
      · have hne : b.m_Idx ≠ s_Valueless := fun h => hvl h.symm
        rcases ihb.2 hne with ⟨hlt, x, hhead⟩
        have hval : b.readRaw ⟨b.m_Idx, hlt⟩ = some x :=
          readRaw_head b _ x true hhead
        have hma : Variant.moveAssign a b =
            .ok ({ m_Idx := (⟨b.m_Idx, hlt⟩ : Fin n).val,
                   m_Raw := (⟨⟨b.m_Idx, hlt⟩, x⟩, true) :: deadAll a.m_Raw,
                   dtorCalls := a.dtorCalls +
                     (if a.m_Idx = s_Valueless then 0 else 1) },
                 { b with m_Idx := s_Valueless }) () := by
          unfold Variant.moveAssign
          rw [if_neg hvl, dif_pos hlt,
            TAssign_spec ⟨b.m_Idx, hlt⟩ a b x hval,
            emplace_ok_spec a ⟨b.m_Idx, hlt⟩ x (Inv_validIdx a iha) hn]
        rw [hma] at heq
        rw [Outcome.ok.injEq, Prod.mk.injEq] at heq
        obtain ⟨⟨hs, -⟩, -⟩ := heq
        subst hs
        exact Inv_emplacePost hn ⟨b.m_Idx, hlt⟩ x _ _
  | move_assign_src a b s s2 hra hrb heq iha ihb =>
      by_cases hvl : s_Valueless = b.m_Idx
      · by_cases hav : s_Valueless = a.m_Idx
        · have hma : Variant.moveAssign a b =
              .ok ({ a with m_Idx := s_Valueless }, b) () := by
            unfold Variant.moveAssign
            rw [if_pos hvl, if_neg (fun h => h hav)]
          rw [hma] at heq
          rw [Outcome.ok.injEq, Prod.mk.injEq] at heq
          obtain ⟨⟨-, hs2⟩, -⟩ := heq
          subst hs2
          exact ihb
        · have hlta : a.m_Idx < n := by
            rcases Inv_validIdx a iha with h | h
            · exact absurd h.symm hav
            · exact h
          have hma : Variant.moveAssign a b =
              .ok ((⟨s_Valueless, deadTop a.m_Raw, a.dtorCalls + 1⟩ : Variant n A),
                b) () := by
            unfold Variant.moveAssign
            rw [if_pos hvl, if_pos hav, dispatchDestroy_of_lt a hlta]
          rw [hma] at heq
          rw [Outcome.ok.injEq, Prod.mk.injEq] at heq
          obtain ⟨⟨-, hs2⟩, -⟩ := heq
          subst hs2
          exact ihb
      · have hne : b.m_Idx ≠ s_Valueless := fun h => hvl h.symm
        rcases ihb.2 hne with ⟨hlt, x, hhead⟩
        have hval : b.readRaw ⟨b.m_Idx, hlt⟩ = some x :=
          readRaw_head b _ x true hhead
        have hma : Variant.moveAssign a b =
            .ok ({ m_Idx := (⟨b.m_Idx, hlt⟩ : Fin n).val,
                   m_Raw := (⟨⟨b.m_Idx, hlt⟩, x⟩, true) :: deadAll a.m_Raw,
                   dtorCalls := a.dtorCalls +
                     (if a.m_Idx = s_Valueless then 0 else 1) },
                 { b with m_Idx := s_Valueless }) () := by
          unfold Variant.moveAssign
          rw [if_neg hvl, dif_pos hlt,
            TAssign_spec ⟨b.m_Idx, hlt⟩ a b x hval,
            emplace_ok_spec a ⟨b.m_Idx, hlt⟩ x (Inv_validIdx a iha) hn]
        rw [hma] at heq
        rw [Outcome.ok.injEq, Prod.mk.injEq] at heq
        obtain ⟨⟨-, hs2⟩, -⟩ := heq
        subst hs2
        exact Inv_set_sentinel b ihb
  | move_assign_self a s hra heq ih =>
      by_cases hvl : s_Valueless = a.m_Idx
      · have hma : Variant.moveAssignSelf a = .ok { a with m_Idx := s_Valueless } () := by
          unfold Variant.moveAssignSelf
          rw [if_pos hvl]
        rw [hma] at heq
        rw [Outcome.ok.injEq] at heq
        obtain ⟨hs, -⟩ := heq
        subst hs
        exact Inv_set_sentinel a ih
      · have hne : a.m_Idx ≠ s_Valueless := fun h => hvl h.symm
        rcases ih.2 hne with ⟨hlt, x, hhead⟩
        have hval : a.readRaw ⟨a.m_Idx, hlt⟩ = some x :=
          readRaw_head a _ x true hhead
        have hma : Variant.moveAssignSelf a =
            .ok { m_Idx := s_Valueless,
                  m_Raw := (⟨⟨a.m_Idx, hlt⟩, x⟩, true) :: deadAll a.m_Raw,
                  dtorCalls := a.dtorCalls +
                    (if a.m_Idx = s_Valueless then 0 else 1) } () := by
          unfold Variant.moveAssignSelf
          rw [if_neg hvl, dif_pos hlt,
            TAssign_spec ⟨a.m_Idx, hlt⟩ a a x hval,
            emplace_ok_spec a ⟨a.m_Idx, hlt⟩ x (Or.inr hlt) hn]
        rw [hma] at heq
        rw [Outcome.ok.injEq] at heq
        obtain ⟨hs, -⟩ := heq
        subst hs
        exact Inv_emplaced_sentinel hn ⟨a.m_Idx, hlt⟩ x _ _
  | value_assign a i x s hra heq ih =>
      have hva : Variant.valueAssign a i (.ok x) =
          .ok { m_Idx := i.val,
                m_Raw := (⟨i, x⟩, true) :: deadAll a.m_Raw,
                dtorCalls := a.dtorCalls +
                  (if a.m_Idx = s_Valueless then 0 else 1) } () := by
        unfold Variant.valueAssign
        rw [emplace_ok_spec a i x (Inv_validIdx a ih) hn]
      rw [hva] at heq
      rw [Outcome.ok.injEq] at heq
      obtain ⟨hs, -⟩ := heq
      subst hs
      exact Inv_emplacePost hn i x _ _

/-- C7 (amended): every instance reachable through sequences of completed
public operations satisfies: all objects below the buffer's current one
are dead and at most one alternative is live at a time; when the
discriminant is not the sentinel it is a valid index and the buffer's
current object is a live, correctly constructed value of the alternative
at that index.  (When the discriminant IS the sentinel the instance owns
no value, but — contrary to the claim as stated — the buffer may retain
one live moved-from object, because moving marks the source valueless
without destroying the moved-from value; see the counterexample.) -/
theorem reachable_state_invariant (hn : n ≤ s_Valueless) (v : Variant n A)
    (hr : Reachable v) :
    Inv v ∧ (liveEntries v).length ≤ 1 ∧
    (v.m_Idx ≠ s_Valueless →
      ∃ (h : v.m_Idx < n) (x : A ⟨v.m_Idx, h⟩),
        v.m_Raw.head? = some (⟨⟨v.m_Idx, h⟩, x⟩, true)) := by
  have hi := reachable_Inv hn v hr
  exact ⟨hi, liveEntries_le_one v hi, hi.2⟩

/-- Witness for C7 (amended) at the default-constructed instance. -/
theorem reachable_state_invariant_witness :
    Inv (Variant.mkDefault (n := 1) (A := fun _ => Nat)) ∧
    (liveEntries (Variant.mkDefault (n := 1) (A := fun _ => Nat))).length ≤ 1 ∧
    (Variant.m_Idx (n := 1) (A := fun _ => Nat) Variant.mkDefault ≠
        s_Valueless →
      ∃ (h : Variant.m_Idx (n := 1) (A := fun _ => Nat) Variant.mkDefault < 1)
        (x : Nat),
        (Variant.m_Raw (n := 1) (A := fun _ => Nat) Variant.mkDefault).head? =
          some (⟨⟨Variant.m_Idx (n := 1) (A := fun _ => Nat)
            Variant.mkDefault, h⟩, x⟩, true)) :=
  reachable_state_invariant (by decide) Variant.mkDefault Reachable.default_ctor

/-- C7 counterexample: the source of a move construction is reachable,
reports the valueless sentinel, and yet its buffer still holds exactly
one live object — the moved-from value, whose destructor is never
invoked — so "when the discriminant is the sentinel, the buffer holds no
live object" fails on the code. -/
theorem sentinel_with_live_object_cex :
    Reachable (⟨s_Valueless, [(⟨0, 42⟩, true)], 0⟩ : Variant 1 (fun _ => Nat)) ∧
    Variant.m_Idx (n := 1) (A := fun _ => Nat)
      ⟨s_Valueless, [(⟨0, 42⟩, true)], 0⟩ = s_Valueless ∧
    liveEntries (n := 1) (A := fun _ => Nat)
      ⟨s_Valueless, [(⟨0, 42⟩, true)], 0⟩ = [⟨0, 42⟩] := by
  refine ⟨?_, rfl, by decide⟩
  exact Reachable.move_ctor_src ⟨0, [(⟨0, 42⟩, true)], 0⟩
    ⟨0, [(⟨0, 42⟩, true)], 0⟩ ⟨s_Valueless, [(⟨0, 42⟩, true)], 0⟩
    (Reachable.value_ctor 0 42 ⟨0, [(⟨0, 42⟩, true)], 0⟩ 42 (by decide))
    (by decide)

end OWS
